import Mathlib

/-!
Verification development for the digifilm album-management scripts.

The definitions below are a shallow embedding of the two CLI entry points
(`src/unnamed/part_000`, the interactive album CLI, and
`src/uploader/main.js`, the bulk uploader) plus the store clients they use.
JavaScript strings are modelled as Lean `String` (with character-list
semantics via `String.data`); the remote R2 object store is modelled as the
list of keys it holds (in listing order); effectful calls against the cloud
services are modelled as explicit `Effect` traces; machine interaction
(inquirer prompts) is modelled by passing the operator's answers as
arguments.
-/

/-- Model of JavaScript `String.prototype.toLowerCase` (per-character). -/
def jsToLower (s : String) : String :=
  String.mk (s.data.map Char.toLower)

/-- Model of JavaScript `String.prototype.startsWith`. -/
def jsStartsWith (s pre : String) : Bool :=
  pre.data.isPrefixOf s.data

/-- Model of JavaScript `String.prototype.endsWith`. -/
def jsEndsWith (s suf : String) : Bool :=
  suf.data.isSuffixOf s.data

/-- Helper for `jsIncludes`: does `sub` occur as a contiguous run of `l`? -/
def containsSeq (sub : List Char) : List Char → Bool
  | [] => sub.isEmpty
  | c :: tl => sub.isPrefixOf (c :: tl) || containsSeq sub tl

/-- Model of JavaScript `String.prototype.includes`. -/
def jsIncludes (s sub : String) : Bool :=
  containsSeq sub.data s.data

/-- The recognized image extensions of the regex
`/\.(jpeg|jpg|png|gif|webp|avif)$/i` used by both entry points. -/
def imageExts : List String :=
  [".jpeg", ".jpg", ".png", ".gif", ".webp", ".avif"]

/-- Model of the case-insensitive image-extension regex test
`/\.(jpeg|jpg|png|gif|webp|avif)$/i.test(k)`. -/
def isImageExt (k : String) : Bool :=
  imageExts.any (fun e => jsEndsWith (jsToLower k) e)

/-- R2 (S3 `ListObjectsV2`) returns at most 1000 keys per page. -/
def pageLimit : Nat := 1000

/-- One provider page of `ListObjectsV2` for the given key `pre`: the first
`pageLimit` keys of the store under that prefix.  The source
(`listR2Images`, part_000 lines 150-166) sends a single command and never
reads `IsTruncated` or a `ContinuationToken`, so only this first page is
ever seen by the scripts. -/
def listObjectsPage (store : List String) (pre : String) : List String :=
  (store.filter (fun k => jsStartsWith k pre)).take pageLimit

/-- Embedding of `listR2Images` (part_000 lines 150-166): one list call for
the album prefix, then the image-extension filter on the returned page. -/
def listR2Images (store : List String) (albumId : String) : List String :=
  (listObjectsPage store (albumId ++ "/")).filter isImageExt

/-- The full set of image keys under the album prefix, i.e. what a listing
that follows pagination cursors to exhaustion would return. -/
def fullImageSet (store : List String) (albumId : String) : List String :=
  (store.filter (fun k => jsStartsWith k (albumId ++ "/"))).filter isImageExt

/-- `deleteR2Images` chunks deletions at 1000 keys per batch
(part_000 line 181). -/
def batchSize : Nat := 1000

/-- The slices produced by the loop
`for (let i = 0; i < keys.length; i += batchSize) keys.slice(i, i + batchSize)`
(part_000 lines 184-185). -/
def chunked (l : List String) : List (List String) :=
  (List.range ((l.length + (batchSize - 1)) / batchSize)).map
    (fun j => (l.drop (j * batchSize)).take batchSize)

/-- The key batches `deleteR2Images` (part_000 lines 168-212) passes to
`DeleteObjectsCommand`: the listed image keys, chunked at 1000. -/
def deleteBatches (store : List String) (albumId : String) : List (List String) :=
  chunked (listR2Images store albumId)

/-- The `deletedCount` reported by `deleteR2Images` assuming no per-key
provider errors (each response's `Deleted` holds the whole batch). -/
def deleteR2ImagesCount (store : List String) (albumId : String) : Nat :=
  (deleteBatches store albumId).foldl (fun acc b => acc + b.length) 0

/-- Effect of one `DeleteObjectsCommand` batch on the store contents. -/
def applyBatch (st : List String) (b : List String) : List String :=
  st.filter (fun k => !(b.contains k))

/-- The store contents after `deleteR2Images` completes. -/
def storeAfterDeleteImages (store : List String) (albumId : String) : List String :=
  (deleteBatches store albumId).foldl applyBatch store

/-- Concrete store fixture: 1500 distinct image objects under prefix
`a/` (keys `a/0.jpg` through `a/1499.jpg`), more than one provider page. -/
def store1500 : List String :=
  (List.range 1500).map (fun i => "a/" ++ Nat.repr i ++ ".jpg")

/-- Album metadata document as stored in KV (part_000 lines 339-345). -/
structure AlbumMeta where
  title : String
  description : String
  cover_key : String
  allow_downloads : Bool
  «private» : Bool
deriving DecidableEq

/-- One observable call against the cloud services.  `confirmGate` marks the
destructive-confirmation prompt of `deleteAlbum` (part_000 lines 233-238). -/
inductive Effect where
  | kvGet (albumId : String)
  | kvPut (albumId : String) (value : AlbumMeta)
  | kvDelete (albumId : String)
  | r2List (pre : String)
  | r2Put (key : String) (width height : Nat)
  | r2DeleteBatch (keys : List String)
  | confirmGate
deriving DecidableEq

/-- Destructive calls: object-store batch deletes and metadata deletes. -/
def isDestructive : Effect → Bool
  | Effect.r2DeleteBatch _ => true
  | Effect.kvDelete _ => true
  | _ => false

/-- Object-store batch-delete calls. -/
def isBatchDelete : Effect → Bool
  | Effect.r2DeleteBatch _ => true
  | _ => false

/-- Object-store writes (uploads or deletions). -/
def isObjectWrite : Effect → Bool
  | Effect.r2Put _ _ _ => true
  | Effect.r2DeleteBatch _ => true
  | _ => false

/-- The confirmation prompt event. -/
def isConfirmGate : Effect → Bool
  | Effect.confirmGate => true
  | _ => false

/-- Call trace of `deleteR2Images` (part_000 lines 168-212): it lists the
album's image keys itself, then issues one `DeleteObjectsCommand` per
1000-key chunk. -/
def deleteR2ImagesTrace (store : List String) (albumId : String) : List Effect :=
  Effect.r2List (albumId ++ "/") ::
    (deleteBatches store albumId).map Effect.r2DeleteBatch

/-- Call trace of `deleteAlbum` (part_000 lines 214-256), with the KV and
object-store clients configured.  `metaPresent` is whether the KV document
exists; `confirmDelete` is the operator's answer to the destructive
confirmation prompt.  The code reads metadata and the image list, returns
early when neither exists, otherwise prompts; on refusal it returns, and on
confirmation it deletes R2 images first (when any were found) and the KV
document second (when it was found). -/
def deleteAlbumTrace (store : List String) (albumId : String)
    (metaPresent confirmDelete : Bool) : List Effect :=
  Effect.kvGet albumId :: Effect.r2List (albumId ++ "/") ::
    (if !metaPresent && (listR2Images store albumId).isEmpty then []
     else Effect.confirmGate ::
       (if !confirmDelete then []
        else (if (listR2Images store albumId).isEmpty then []
              else deleteR2ImagesTrace store albumId)
             ++ (if metaPresent then [Effect.kvDelete albumId] else [])))

/-- Dimension inspection of the interactive CLI (part_000 lines 457-475):
`sizeOf` either throws (`none`) or yields a record whose width/height
default to `0` when missing; non-positive dimensions raise and are caught,
and every failure falls back to the 1200x800 landscape default. -/
def inspectDims (decoded : Option (Nat × Nat)) : Nat × Nat :=
  match decoded with
  | some (w, h) => if w > 0 && h > 0 then (w, h) else (1200, 800)
  | none => (1200, 800)

/-- Fallback dimensions of the bulk uploader (main.js lines 124-129): the
filename chooses between portrait, square and landscape defaults. -/
def fallbackDims (filename : String) : Nat × Nat :=
  if jsIncludes (jsToLower filename) "portrait" then (800, 1200)
  else if jsIncludes (jsToLower filename) "square" then (1000, 1000)
  else (1200, 800)

/-- Dimension inspection of the bulk uploader (main.js lines 112-129). -/
def inspectDimsBulk (filename : String) (decoded : Option (Nat × Nat)) : Nat × Nat :=
  match decoded with
  | some (w, h) => if w > 0 && h > 0 then (w, h) else fallbackDims filename
  | none => fallbackDims filename

/-- A buffer whose dimensions cannot be determined: `sizeOf` throws, or
reports a non-positive width or height. -/
def undecodable (decoded : Option (Nat × Nat)) : Bool :=
  match decoded with
  | some (w, h) => !(w > 0 && h > 0)
  | none => true

/-- A file of the local source folder, as the upload loops see it: its
name, the result of dimension inspection on its bytes, and whether the
`PutObjectCommand` for it succeeds (the per-file upload outcome). -/
structure LocalFile where
  name : String
  decoded : Option (Nat × Nat)
  putOk : Bool

/-- The files matching the image-extension filter
(part_000 lines 441-443, main.js line 98). -/
def matchingImageFiles (files : List LocalFile) : List LocalFile :=
  files.filter (fun f => isImageExt f.name)

/-- The upload loop shared by both entry points (part_000 lines 450-501,
main.js lines 105-150), parameterized by the entry point's dimension rule:
for each file it issues one `PutObjectCommand` under `<albumId>/<filename>`
with the inspected dimensions as metadata, and increments `uploadedCount`
exactly when that put succeeds.  Returns the call trace and the final
`uploadedCount`. -/
def uploadLoop (dims : LocalFile → Nat × Nat) (albumId : String)
    (files : List LocalFile) : List Effect × Nat :=
  files.foldl
    (fun acc f =>
      (acc.1 ++ [Effect.r2Put (albumId ++ "/" ++ f.name) (dims f).1 (dims f).2],
       if f.putOk then acc.2 + 1 else acc.2))
    ([], 0)

/-- Dimension rule of the interactive CLI. -/
def cliDims (f : LocalFile) : Nat × Nat := inspectDims f.decoded

/-- Dimension rule of the bulk uploader. -/
def bulkDims (f : LocalFile) : Nat × Nat := inspectDimsBulk f.name f.decoded

/-- Call trace of `manageAlbum` (part_000 lines 258-507), with the clients
configured and a folder selected.  Arguments are the operator's prompt
answers: whether to manage metadata, the metadata fields entered, whether
to save them, whether to upload images, whether to confirm the upload, and
the selected folder's files.  The metadata branch fetches the existing
document and lists existing images for cover selection before saving; the
upload branch filters the folder and runs the upload loop. -/
def manageAlbumTrace (albumId : String) (manageMetadata : Bool)
    (meta : AlbumMeta) (confirmKv : Bool) (uploadImages confirmUpload : Bool)
    (files : List LocalFile) : List Effect :=
  (if manageMetadata then
     Effect.kvGet albumId :: Effect.r2List (albumId ++ "/") ::
       (if confirmKv then [Effect.kvPut albumId meta] else [])
   else []) ++
  (if !uploadImages then []
   else if !confirmUpload then []
   else if (matchingImageFiles files).isEmpty then []
   else (uploadLoop cliDims albumId (matchingImageFiles files)).1)

/-- Result of the provider call inside `getKvMetadata`: either a value
(`none` for an absent/falsy body) or a thrown error carrying an HTTP
status and an optional message.  A JSON-parse failure of the body is a
thrown error as well and is covered by the `err` case. -/
inductive KvFetchResult where
  | ok (v : Option AlbumMeta)
  | err (status : Nat) (msg : Option String)

/-- The not-found test of `getKvMetadata` (part_000 line 93):
`error.status === 404 || error.message?.includes("10009")`. -/
def kvNotFoundErr (status : Nat) (msg : Option String) : Bool :=
  status == 404 ||
    (match msg with
     | some m => jsIncludes m "10009"
     | none => false)

/-- Embedding of `getKvMetadata` (part_000 lines 70-99).  Returns the
fetched document (or `none`) and whether a warning was logged.  The
function is total: every branch returns, so the operation never aborts. -/
def getKvMetadata (clientPresent : Bool) (r : KvFetchResult) :
    Option AlbumMeta × Bool :=
  if !clientPresent then (none, false)
  else
    match r with
    | KvFetchResult.ok v => (v, false)
    | KvFetchResult.err s m =>
        if kvNotFoundErr s m then (none, false) else (none, true)

/-- Object-store contents keyed with their width/height attributes, for the
idempotence claim about the upload phase. -/
def ObjStore : Type := String → Option (Nat × Nat)

/-- Effect of one successful `PutObjectCommand`: overwrite the object (and
its dimension attributes) at the key. -/
def putObject (st : ObjStore) (k : String) (d : Nat × Nat) : ObjStore :=
  fun q => if q = k then some d else st q

/-- State effect of the interactive CLI's upload phase on the object store,
with every put succeeding: each matching file is uploaded (overwrite) under
`<albumId>/<filename>` with its inspected dimensions. -/
def uploadPhaseStore (albumId : String) (files : List LocalFile)
    (st : ObjStore) : ObjStore :=
  (matchingImageFiles files).foldl
    (fun s f => putObject s (albumId ++ "/" ++ f.name) (cliDims f)) st

/-- Lowercase letters and digits, the characters the derived album id
keeps verbatim. -/
def isLowerAlnum (c : Char) : Bool :=
  (decide ('a' ≤ c) && decide (c ≤ 'z')) ||
    (decide ('0' ≤ c) && decide (c ≤ '9'))

/-- Characters of the slug grammar `[a-z0-9-]`. -/
def isSlugChar (c : Char) : Bool :=
  isLowerAlnum c || c == '-'

/-- The per-character replacement of the first global replace: every
character outside `[a-z0-9-]` becomes a hyphen. -/
def slugMapChar (c : Char) : Char :=
  if isSlugChar c then c else '-'

/-- The run collapsing of the second global replace (pattern `--+`, written
with two or more hyphens): every maximal run of two or more hyphens becomes
a single hyphen. -/
def collapseHyphens : List Char → List Char
  | [] => []
  | [c] => [c]
  | c :: d :: rest =>
      if c == '-' && d == '-' then collapseHyphens (d :: rest)
      else c :: collapseHyphens (d :: rest)

/-- Removal of one leading hyphen (the `^-` half of the third global
replace, pattern `^-` or `-$` with empty replacement; after run collapsing
at most one leading hyphen can occur). -/
def stripLeadHyphen (l : List Char) : List Char :=
  match l with
  | [] => []
  | c :: rest => if c == '-' then rest else c :: rest

/-- Removal of one trailing hyphen (the `-$` half of the same replace). -/
def stripTrailHyphen : List Char → List Char
  | [] => []
  | [c] => if c == '-' then [] else [c]
  | c :: d :: rest => c :: stripTrailHyphen (d :: rest)

/-- Embedding of the album-id derivation of the bulk uploader
(main.js line 65): lowercase the folder name, globally replace characters
outside `[a-z0-9-]` with hyphens, collapse hyphen runs, then strip a
leading and a trailing hyphen. -/
def deriveAlbumId (folderName : String) : String :=
  String.mk
    (stripTrailHyphen (stripLeadHyphen (collapseHyphens
      ((folderName.data.map Char.toLower).map slugMapChar))))

/-- Membership in the identifier grammar `^[a-z0-9-]+$`. -/
def matchesSlugGrammar (s : String) : Bool :=
  !s.data.isEmpty && s.data.all isSlugChar

/-- The object key built by both entry points for an upload:
`<albumId>/<filename>`. -/
def r2KeyFor (albumId filename : String) : String :=
  albumId ++ "/" ++ filename

/-- Adjacent-hyphen freedom of a character list. -/
def noDoubleHyphen : List Char → Bool
  | c :: d :: rest => !(c == '-' && d == '-') && noDoubleHyphen (d :: rest)
  | _ => true

/-- A list is a prefix of itself followed by anything. -/
theorem isPrefixOf_self_append (l1 l2 : List Char) :
    l1.isPrefixOf (l1 ++ l2) = true := by
  induction l1 with
  | nil => simp [List.isPrefixOf]
  | cons c tl ih => simp [List.isPrefixOf, ih]

/-- The appended string starts with its first part. -/
theorem jsStartsWith_append (pre s : String) :
    jsStartsWith (pre ++ s) pre = true := by
  unfold jsStartsWith
  rw [String.data_append]
  exact isPrefixOf_self_append pre.data s.data

/-- The appended string ends with its second part. -/
theorem jsEndsWith_append (s suf : String) :
    jsEndsWith (s ++ suf) suf = true := by
  unfold jsEndsWith
  rw [String.data_append]
  unfold List.isSuffixOf
  rw [List.reverse_append]
  exact isPrefixOf_self_append suf.data.reverse s.data.reverse

/-- Lowercasing distributes over string append. -/
theorem jsToLower_append (s t : String) :
    jsToLower (s ++ t) = jsToLower s ++ jsToLower t := by
  unfold jsToLower
  apply congrArg String.mk
  rw [String.data_append, List.map_append]

/-- Any string obtained by appending a literal lowercase `.jpg` suffix
passes the image-extension filter. -/
theorem isImageExt_append_jpg (s : String) :
    isImageExt (s ++ ".jpg") = true := by
  apply List.any_eq_true.mpr
  refine ⟨".jpg", by decide, ?_⟩
  rw [jsToLower_append]
  have h : jsToLower ".jpg" = ".jpg" := by decide
  rw [h]
  exact jsEndsWith_append (jsToLower s) ".jpg"

/-- Every key of the 1500-object fixture is an image key under `a/`. -/
theorem store1500_mem_props (k : String) (hk : k ∈ store1500) :
    jsStartsWith k ("a" ++ "/") = true ∧ isImageExt k = true := by
  obtain ⟨i, _, rfl⟩ := List.mem_map.mp hk
  constructor
  · have e : ("a" ++ "/" : String) = "a/" := by decide
    rw [e, String.append_assoc]
    exact jsStartsWith_append "a/" (Nat.repr i ++ ".jpg")
  · exact isImageExt_append_jpg ("a/" ++ Nat.repr i)

/-- The fixture has 1500 keys. -/
theorem store1500_length : store1500.length = 1500 := by
  unfold store1500
  rw [List.length_map, List.length_range]

/-- On the fixture, the single-page listing returns exactly 1000 keys. -/
theorem listR2Images_store1500_length :
    (listR2Images store1500 "a").length = 1000 := by
  unfold listR2Images listObjectsPage
  have hpre : store1500.filter (fun k => jsStartsWith k ("a" ++ "/")) = store1500 :=
    List.filter_eq_self.mpr (fun k hk => (store1500_mem_props k hk).1)
  rw [hpre]
  have himg : (store1500.take pageLimit).filter isImageExt = store1500.take pageLimit :=
    List.filter_eq_self.mpr
      (fun k hk => (store1500_mem_props k (List.take_subset pageLimit store1500 hk)).2)
  rw [himg, List.length_take, store1500_length]
  have hp : pageLimit = 1000 := rfl
  omega

/-- Claim C1 (code_bug evidence).  `listR2Images` issues one
`ListObjectsV2` call and never follows the continuation cursor, so on a
store holding 1500 image objects under the prefix it returns only the
first provider page (1000 keys) instead of the full 1500-key image set. -/
theorem listR2Images_misses_second_page :
    (listR2Images store1500 "a").length = 1000 ∧
    (fullImageSet store1500 "a").length = 1500 ∧
    listR2Images store1500 "a" ≠ fullImageSet store1500 "a" := by
  have h1 : (listR2Images store1500 "a").length = 1000 := listR2Images_store1500_length
  have hpre : store1500.filter (fun k => jsStartsWith k ("a" ++ "/")) = store1500 :=
    List.filter_eq_self.mpr (fun k hk => (store1500_mem_props k hk).1)
  have himg : store1500.filter isImageExt = store1500 :=
    List.filter_eq_self.mpr (fun k hk => (store1500_mem_props k hk).2)
  have h2 : (fullImageSet store1500 "a").length = 1500 := by
    unfold fullImageSet
    rw [hpre, himg, store1500_length]
  refine ⟨h1, h2, ?_⟩
  intro heq
  rw [heq, h2] at h1
  exact absurd h1 (by decide)

/-- Claim C2 (code_bug evidence).  Because the listing returns only one
page, deleting an album whose prefix holds 1500 image objects issues one
batched delete call (not at least two) and reports 1000 deletions (not
1500), even with no per-key provider errors. -/
theorem deleteR2Images_single_batch_at_1500 :
    (deleteBatches store1500 "a").length = 1 ∧
    deleteR2ImagesCount store1500 "a" = 1000 := by
  have hlen : (listR2Images store1500 "a").length = 1000 := listR2Images_store1500_length
  have hb : deleteBatches store1500 "a" =
      [((listR2Images store1500 "a").drop 0).take batchSize] := by
    unfold deleteBatches chunked
    rw [hlen]
    rfl
  constructor
  · rw [hb]
    rfl
  · unfold deleteR2ImagesCount
    rw [hb]
    simp only [List.foldl_cons, List.foldl_nil, List.drop_zero, Nat.zero_add,
      List.length_take, hlen]
    have hbs : batchSize = 1000 := rfl
    omega

/-- Claim C6.  `getKvMetadata` never aborts: with the client configured, a
thrown provider error always yields `none`, warning exactly when the error
is not a not-found condition (status 404 or message containing the
provider not-found code 10009); a successful fetch is returned as-is, with
an absent value yielding `none` and no warning. -/
theorem getKvMetadata_error_handling :
    (∀ (s : Nat) (m : Option String),
        getKvMetadata true (KvFetchResult.err s m) = (none, !(kvNotFoundErr s m))) ∧
    getKvMetadata true (KvFetchResult.ok none) = (none, false) ∧
    (∀ v : Option AlbumMeta, getKvMetadata true (KvFetchResult.ok v) = (v, false)) := by
  refine ⟨fun s m => ?_, rfl, fun v => rfl⟩
  unfold getKvMetadata
  cases hk : kvNotFoundErr s m <;> simp [hk]

/-- Claim C4 counterexample.  In the bulk-uploader entry point an
undecodable buffer named `portrait.png` does not get the `(1200, 800)`
fallback the claim requires for every entry point. -/
theorem inspect_bulk_portrait_counterexample :
    inspectDimsBulk "portrait.png" none ≠ (1200, 800) := by decide

/-- Claim C4 as amended.  For every undecodable buffer the interactive CLI
falls back to exactly `(1200, 800)`, while the bulk uploader's fallback
depends on the filename: `(800, 1200)` when its lowercased name contains
`portrait`, `(1000, 1000)` when it contains `square` (and not `portrait`),
and `(1200, 800)` otherwise.  Both inspectors are total functions, so
neither ever raises. -/
theorem inspect_fallback_characterization (d : Option (Nat × Nat)) (f : String)
    (hd : undecodable d = true) :
    inspectDims d = (1200, 800) ∧
    (jsIncludes (jsToLower f) "portrait" = true →
      inspectDimsBulk f d = (800, 1200)) ∧
    (jsIncludes (jsToLower f) "portrait" = false →
      jsIncludes (jsToLower f) "square" = true →
      inspectDimsBulk f d = (1000, 1000)) ∧
    (jsIncludes (jsToLower f) "portrait" = false →
      jsIncludes (jsToLower f) "square" = false →
      inspectDimsBulk f d = (1200, 800)) := by
  cases d with
  | none =>
      refine ⟨rfl, ?_, ?_, ?_⟩
      · intro h1
        simp [inspectDimsBulk, fallbackDims, h1]
      · intro h1 h2
        simp [inspectDimsBulk, fallbackDims, h1, h2]
      · intro h1 h2
        simp [inspectDimsBulk, fallbackDims, h1, h2]
  | some p =>
      obtain ⟨w, h⟩ := p
      have hwh : w = 0 ∨ h = 0 := by simpa [undecodable] using hd
      have hb : (decide (w > 0) && decide (h > 0)) = false := by
        rcases hwh with h0 | h0 <;> subst h0 <;> simp
      refine ⟨?_, ?_, ?_, ?_⟩
      · simp [inspectDims, hb]
      · intro h1
        simp [inspectDimsBulk, fallbackDims, hb, h1]
      · intro h1 h2
        simp [inspectDimsBulk, fallbackDims, hb, h1, h2]
      · intro h1 h2
        simp [inspectDimsBulk, fallbackDims, hb, h1, h2]

/-- Witness for the amended C4 theorem at a concrete undecodable buffer. -/
theorem inspect_fallback_witness :
    inspectDims none = (1200, 800) ∧
    inspectDimsBulk "portrait.png" none = (800, 1200) := by
  have h := inspect_fallback_characterization none "portrait.png" (by decide)
  exact ⟨h.1, h.2.1 (by decide)⟩

/-- Claim C3 counterexample.  A `createOrUpdate` run that manages metadata
but declines the upload phase still issues an object-store list call (the
metadata branch lists existing images for cover selection), contradicting
the claim that no object-store call of any kind occurs. -/
theorem manageAlbum_metadata_only_lists_store :
    Effect.r2List "my-album/" ∈
      manageAlbumTrace "my-album" true
        ⟨"t", "d", "my-album/c.jpg", true, false⟩ true false false [] := by decide

/-- Claim C3 as amended.  A `createOrUpdate` run with no upload phase never
writes to the object store: its trace holds no put and no batch delete
(the metadata branch may still issue one read-only list call for cover
selection, and only the metadata store is written). -/
theorem manageAlbum_no_upload_no_object_write (albumId : String) (m : Bool)
    (meta : AlbumMeta) (ck cu : Bool) (files : List LocalFile) :
    (manageAlbumTrace albumId m meta ck false cu files).filter isObjectWrite = [] := by
  cases m <;> cases ck <;> simp [manageAlbumTrace, isObjectWrite]

/-- Characterization of the upload loop's fold: starting from any
accumulator, it appends one put call per file and adds one to the count
per successful put. -/
theorem uploadLoop_fold_char (dims : LocalFile → Nat × Nat) (albumId : String)
    (files : List LocalFile) :
    ∀ (tr : List Effect) (n : Nat),
      List.foldl
        (fun acc f =>
          (acc.1 ++ [Effect.r2Put (albumId ++ "/" ++ f.name) (dims f).1 (dims f).2],
           if f.putOk then acc.2 + 1 else acc.2))
        (tr, n) files
      = (tr ++ files.map
            (fun f => Effect.r2Put (albumId ++ "/" ++ f.name) (dims f).1 (dims f).2),
         n + (files.filter (fun f => f.putOk)).length) := by
  induction files with
  | nil => intro tr n; simp
  | cons f fs ih =>
      intro tr n
      simp only [List.foldl_cons]
      rw [ih]
      cases hp : f.putOk
      all_goals simp [List.filter_cons, hp, List.append_assoc]
      all_goals omega

/-- The upload loop returns the per-file put trace and the success count. -/
theorem uploadLoop_eq (dims : LocalFile → Nat × Nat) (albumId : String)
    (files : List LocalFile) :
    uploadLoop dims albumId files =
      (files.map
        (fun f => Effect.r2Put (albumId ++ "/" ++ f.name) (dims f).1 (dims f).2),
       (files.filter (fun f => f.putOk)).length) := by
  unfold uploadLoop
  rw [uploadLoop_fold_char dims albumId files [] 0]
  simp

/-- Claim C7.  In the image-upload loop of either entry point (the
interactive CLI uses `cliDims`, the bulk uploader `bulkDims`; the theorem
holds for any dimension rule), every file matching the image-extension
filter gets exactly one upload call, in order, regardless of which earlier
uploads failed; the final count equals the number of files whose put
succeeded, and the reported tallies satisfy
succeeded + failed = processed with processed the number of matching
files and failed computed as processed minus succeeded. -/
theorem uploadLoop_fire_and_continue (dims : LocalFile → Nat × Nat)
    (albumId : String) (files : List LocalFile) :
    (uploadLoop dims albumId (matchingImageFiles files)).1 =
      (matchingImageFiles files).map
        (fun f => Effect.r2Put (albumId ++ "/" ++ f.name) (dims f).1 (dims f).2) ∧
    (uploadLoop dims albumId (matchingImageFiles files)).2 =
      ((matchingImageFiles files).filter (fun f => f.putOk)).length ∧
    (uploadLoop dims albumId (matchingImageFiles files)).2 +
        ((matchingImageFiles files).length -
          (uploadLoop dims albumId (matchingImageFiles files)).2) =
      (matchingImageFiles files).length := by
  rw [uploadLoop_eq]
  refine ⟨rfl, rfl, ?_⟩
  have hle : ((matchingImageFiles files).filter (fun f => f.putOk)).length ≤
      (matchingImageFiles files).length := List.length_filter_le _ _
  omega

/-- Characterization of the upload phase's effect on the object store: the
result at a key is the last upload to that key if any, and the prior store
content otherwise. -/
theorem uploadStoreFold_char (albumId : String) (fs : List LocalFile) :
    ∀ (st : ObjStore) (k : String),
      List.foldl (fun s f => putObject s (albumId ++ "/" ++ f.name) (cliDims f)) st fs k =
        match
          List.foldl (fun s f => putObject s (albumId ++ "/" ++ f.name) (cliDims f))
            (fun _ => none : ObjStore) fs k with
        | some d => some d
        | none => st k := by
  induction fs with
  | nil => intro st k; rfl
  | cons f fs ih =>
      intro st k
      simp only [List.foldl_cons]
      rw [ih (putObject st (albumId ++ "/" ++ f.name) (cliDims f)) k,
        ih (putObject (fun _ => none : ObjStore) (albumId ++ "/" ++ f.name) (cliDims f)) k]
      rcases hM : List.foldl
          (fun s f => putObject s (albumId ++ "/" ++ f.name) (cliDims f))
          (fun _ => none : ObjStore) fs k with _ | val
      all_goals simp only [hM]
      by_cases hk : k = albumId ++ "/" ++ f.name
      all_goals simp [putObject, hk]

/-- Claim C8.  Running the upload phase of `createOrUpdate` twice with the
same folder contents is idempotent on the object store: the state after
the second run equals the state after the first (same keys, same per-key
dimension attributes), while the second run still issues one put
(overwrite) per matching file rather than skipping. -/
theorem uploadPhase_idempotent (albumId : String) (files : List LocalFile)
    (st : ObjStore) :
    uploadPhaseStore albumId files (uploadPhaseStore albumId files st) =
      uploadPhaseStore albumId files st ∧
    (uploadLoop cliDims albumId (matchingImageFiles files)).1.length =
      (matchingImageFiles files).length := by
  constructor
  · funext k
    unfold uploadPhaseStore
    rw [uploadStoreFold_char albumId (matchingImageFiles files)
        (List.foldl (fun s f => putObject s (albumId ++ "/" ++ f.name) (cliDims f)) st
          (matchingImageFiles files)) k,
      uploadStoreFold_char albumId (matchingImageFiles files) st k]
    rcases hM : List.foldl
        (fun s f => putObject s (albumId ++ "/" ++ f.name) (cliDims f))
        (fun _ => none : ObjStore) (matchingImageFiles files) k with _ | val
    all_goals simp only [hM]
  · rw [uploadLoop_eq]
    simp

/-- If a list ends with `x` and holds no other occurrence of `x`, nothing
follows `x` in any decomposition at `x`. -/
theorem eq_append_cons_last {α : Type} {x : α} :
    ∀ (front l1 l2 : List α), x ∉ front → front ++ [x] = l1 ++ x :: l2 → l2 = [] := by
  intro front
  induction front with
  | nil =>
      intro l1 l2 _ h
      cases l1 with
      | nil => simpa using h.symm
      | cons b l1 =>
          have hl := congrArg List.length h
          simp [List.length_append] at hl
  | cons a front ih =>
      intro l1 l2 hx h
      cases l1 with
      | nil =>
          simp only [List.nil_append, List.cons_append, List.cons.injEq] at h
          exact absurd h.1.symm (fun hxa => hx (hxa ▸ List.mem_cons_self a front))
      | cons b l1 =>
          simp only [List.cons_append, List.cons.injEq] at h
          exact ih l1 l2 (fun hm => hx (List.mem_cons_of_mem a hm)) h.2

/-- Claim C5.  In `deleteAlbum`: no destructive call (object-store batch
delete or metadata delete) ever appears before the confirmation prompt in
the trace; if the operator refuses, the trace holds no destructive call at
all; and in any run, nothing after the metadata delete is an object-store
batch delete, i.e. all image deletion precedes the metadata deletion. -/
theorem deleteAlbum_confirmation_gate (store : List String) (albumId : String)
    (metaPresent confirmDelete : Bool) :
    (confirmDelete = false →
      (deleteAlbumTrace store albumId metaPresent confirmDelete).filter
        isDestructive = []) ∧
    ((deleteAlbumTrace store albumId metaPresent confirmDelete).takeWhile
        (fun e => !isConfirmGate e)).filter isDestructive = [] ∧
    (∀ l1 l2,
      deleteAlbumTrace store albumId metaPresent confirmDelete =
        l1 ++ Effect.kvDelete albumId :: l2 →
      ∀ e ∈ l2, isBatchDelete e = false) := by
  refine ⟨?_, ?_, ?_⟩
  · intro hc
    subst hc
    cases metaPresent <;> cases hE : (listR2Images store albumId).isEmpty <;>
      simp [deleteAlbumTrace, hE, isDestructive]
  · cases metaPresent <;> cases confirmDelete <;>
      cases hE : (listR2Images store albumId).isEmpty <;>
      simp [deleteAlbumTrace, deleteR2ImagesTrace, hE, isDestructive, isConfirmGate]
  · intro l1 l2 h e he
    cases hm : metaPresent with
    | false =>
        exfalso
        subst hm
        have hmem : Effect.kvDelete albumId ∈
            deleteAlbumTrace store albumId false confirmDelete := by
          rw [h]
          simp
        cases confirmDelete <;> cases hE : (listR2Images store albumId).isEmpty <;>
          simp [deleteAlbumTrace, deleteR2ImagesTrace, hE] at hmem
    | true =>
        subst hm
        cases hc : confirmDelete with
        | false =>
            exfalso
            subst hc
            have hmem : Effect.kvDelete albumId ∈
                deleteAlbumTrace store albumId true false := by
              rw [h]
              simp
            cases hE : (listR2Images store albumId).isEmpty <;>
              simp [deleteAlbumTrace, hE] at hmem
        | true =>
            subst hc
            cases hE : (listR2Images store albumId).isEmpty with
            | true =>
                have hform : deleteAlbumTrace store albumId true true =
                    (Effect.kvGet albumId :: Effect.r2List (albumId ++ "/") ::
                      [Effect.confirmGate]) ++ [Effect.kvDelete albumId] := by
                  simp [deleteAlbumTrace, hE]
                have h2 : l2 = [] := by
                  apply eq_append_cons_last _ l1 l2 _ (hform ▸ h)
                  simp
                subst h2
                simp at he
            | false =>
                have hform : deleteAlbumTrace store albumId true true =
                    (Effect.kvGet albumId :: Effect.r2List (albumId ++ "/") ::
                      Effect.confirmGate :: deleteR2ImagesTrace store albumId) ++
                      [Effect.kvDelete albumId] := by
                  simp [deleteAlbumTrace, hE]
                have h2 : l2 = [] := by
                  apply eq_append_cons_last _ l1 l2 _ (hform ▸ h)
                  simp [deleteR2ImagesTrace]
                subst h2
                simp at he

/-- Witness for the C5 theorem: a refused confirmation on a concrete store
yields a trace with no destructive call. -/
theorem deleteAlbum_confirmation_gate_witness :
    (deleteAlbumTrace ["a/x.jpg"] "a" true false).filter isDestructive = [] :=
  (deleteAlbum_confirmation_gate ["a/x.jpg"] "a" true false).1 rfl

/-- Every chunk produced by the batching loop is a subset of the key
list being chunked. -/
theorem mem_chunked_subset (l b : List String) (hb : b ∈ chunked l) :
    ∀ k ∈ b, k ∈ l := by
  unfold chunked at hb
  obtain ⟨j, _, rfl⟩ := List.mem_map.mp hb
  intro k hk
  exact List.drop_subset _ l (List.take_subset _ _ hk)

/-- Every key returned by `listR2Images` lies under the album prefix and
passes the image-extension filter. -/
theorem listR2Images_props (store : List String) (albumId k : String)
    (hk : k ∈ listR2Images store albumId) :
    jsStartsWith k (albumId ++ "/") = true ∧ isImageExt k = true := by
  unfold listR2Images listObjectsPage at hk
  have h1 := List.mem_filter.mp hk
  have h2 : k ∈ store.filter (fun q => jsStartsWith q (albumId ++ "/")) :=
    List.take_subset _ _ h1.1
  exact ⟨(List.mem_filter.mp h2).2, h1.2⟩

/-- A contained key is a member (lawful string equality). -/
theorem mem_of_contains (b : List String) (k : String)
    (h : b.contains k = true) : k ∈ b := by
  simpa [List.contains] using h

/-- A key no batch contains survives every batched delete. -/
theorem mem_foldl_applyBatch :
    ∀ (bs : List (List String)) (st : List String) (k : String),
      k ∈ st → (∀ b ∈ bs, b.contains k = false) →
      k ∈ bs.foldl applyBatch st := by
  intro bs
  induction bs with
  | nil =>
      intro st k hk _
      simpa using hk
  | cons b bs ih =>
      intro st k hk hall
      simp only [List.foldl_cons]
      apply ih
      · refine List.mem_filter.mpr ⟨hk, ?_⟩
        rw [hall b (List.mem_cons_self b bs)]
        rfl
      · intro b2 hb2
        exact hall b2 (List.mem_cons_of_mem b hb2)

/-- Claim C9.  `deleteR2Images` only ever passes image-extension keys under
the album prefix to the batch-delete call, and every stored object whose
key is not under the prefix or lacks a recognized image extension is still
in the store after the deletion completes. -/
theorem deleteImages_only_image_keys (store : List String) (albumId : String) :
    (∀ b ∈ deleteBatches store albumId, ∀ k ∈ b,
        jsStartsWith k (albumId ++ "/") = true ∧ isImageExt k = true) ∧
    (∀ k ∈ store,
        (jsStartsWith k (albumId ++ "/") = false ∨ isImageExt k = false) →
        k ∈ storeAfterDeleteImages store albumId) := by
  have hbatch : ∀ b ∈ deleteBatches store albumId, ∀ k ∈ b,
      jsStartsWith k (albumId ++ "/") = true ∧ isImageExt k = true := by
    intro b hb k hk
    exact listR2Images_props store albumId k
      (mem_chunked_subset (listR2Images store albumId) b hb k hk)
  refine ⟨hbatch, ?_⟩
  intro k hk hprop
  apply mem_foldl_applyBatch (deleteBatches store albumId) store k hk
  intro b hb
  cases hcc : b.contains k with
  | false => rfl
  | true =>
      exfalso
      have hkb := mem_of_contains b k hcc
      have hp := hbatch b hb k hkb
      rcases hprop with hno | hno
      · rw [hp.1] at hno
        exact absurd hno (by simp)
      · rw [hp.2] at hno
        exact absurd hno (by simp)

/-- Witness for the C9 theorem: on a concrete store a non-image key under
the prefix survives the album deletion. -/
theorem deleteImages_only_image_keys_witness :
    "a/notes.txt" ∈ storeAfterDeleteImages ["a/x.jpg", "a/notes.txt"] "a" :=
  (deleteImages_only_image_keys ["a/x.jpg", "a/notes.txt"] "a").2
    "a/notes.txt" (by decide) (Or.inr (by decide))

/-- Slug characters are never uppercase letters. -/
theorem isSlugChar_not_upper (c : Char) (h : isSlugChar c = true) :
    c.isUpper = false := by
  unfold isSlugChar isLowerAlnum at h
  simp only [Bool.or_eq_true, Bool.and_eq_true, decide_eq_true_eq, beq_iff_eq] at h
  rcases h with (⟨h1, h2⟩ | ⟨h1, h2⟩) | h1
  · rw [Char.le_def, UInt32.le_def, BitVec.le_def] at h1 h2
    have e1 : ('a'.val).toBitVec.toNat = 97 := by decide
    have e3 : ((90 : UInt32)).toBitVec.toNat = 90 := by decide
    simp only [Char.isUpper, Bool.and_eq_false_iff, decide_eq_false_iff_not]
    right
    intro hc
    rw [UInt32.le_def, BitVec.le_def, e3] at hc
    rw [e1] at h1
    omega
  · rw [Char.le_def, UInt32.le_def, BitVec.le_def] at h1 h2
    have e2 : ('9'.val).toBitVec.toNat = 57 := by decide
    have e4 : ((65 : UInt32)).toBitVec.toNat = 65 := by decide
    simp only [Char.isUpper, Bool.and_eq_false_iff, decide_eq_false_iff_not]
    left
    intro hc
    rw [ge_iff_le, UInt32.le_def, BitVec.le_def, e4] at hc
    rw [e2] at h2
    omega
  · subst h1
    decide

/-- The replacement map only produces slug characters. -/
theorem isSlugChar_slugMapChar (c : Char) : isSlugChar (slugMapChar c) = true := by
  unfold slugMapChar
  split
  · assumption
  · decide

/-- The replacement map preserves the lowercase-alnum test. -/
theorem alnum_slugMapChar (c : Char) :
    isLowerAlnum (slugMapChar c) = isLowerAlnum c := by
  unfold slugMapChar
  split
  · rfl
  · rename_i h
    have hc : isLowerAlnum c = false := by
      rcases hb : isLowerAlnum c with _ | _
      · rfl
      · exact absurd (by simp [isSlugChar, hb]) h
    rw [hc]
    decide

/-- Run collapsing keeps the head of the list. -/
theorem collapse_headq : ∀ l : List Char, (collapseHyphens l).head? = l.head? := by
  intro l
  induction l using collapseHyphens.induct with
  | case1 => rfl
  | case2 c => rfl
  | case3 c d rest h ih =>
      rw [collapseHyphens, if_pos h]
      rw [ih]
      have h2 := h
      simp only [Bool.and_eq_true, beq_iff_eq] at h2
      rw [List.head?_cons, List.head?_cons, h2.1, h2.2]
  | case4 c d rest h ih =>
      rw [collapseHyphens, if_neg h]
      rfl

/-- Run collapsing only keeps characters of the input. -/
theorem mem_collapse : ∀ (l : List Char) (c : Char),
    c ∈ collapseHyphens l → c ∈ l := by
  intro l
  induction l using collapseHyphens.induct with
  | case1 =>
      intro c hc
      rw [collapseHyphens] at hc
      exact hc
  | case2 e => intro c hc; exact hc
  | case3 e d rest h ih =>
      intro c hc
      rw [collapseHyphens, if_pos h] at hc
      exact List.mem_cons_of_mem e (ih c hc)
  | case4 e d rest h ih =>
      intro c hc
      rw [collapseHyphens, if_neg h] at hc
      rcases List.mem_cons.mp hc with he | htl
      · exact he ▸ List.mem_cons_self e (d :: rest)
      · exact List.mem_cons_of_mem e (ih c htl)

/-- Dropping the head preserves adjacent-hyphen freedom. -/
theorem noDD_tail (c : Char) (l : List Char)
    (h : noDoubleHyphen (c :: l) = true) : noDoubleHyphen l = true := by
  cases l with
  | nil => rfl
  | cons d r =>
      rw [noDoubleHyphen, Bool.and_eq_true] at h
      exact h.2

/-- Run collapsing yields a list with no two adjacent hyphens. -/
theorem collapse_noDD : ∀ l : List Char,
    noDoubleHyphen (collapseHyphens l) = true := by
  intro l
  induction l using collapseHyphens.induct with
  | case1 => rfl
  | case2 c => rfl
  | case3 c d rest h ih =>
      rw [collapseHyphens, if_pos h]
      exact ih
  | case4 c d rest h ih =>
      rw [collapseHyphens, if_neg h]
      rcases hX : collapseHyphens (d :: rest) with _ | ⟨e, t⟩
      · rfl
      · have hhead : e = d := by
          have hq := collapse_headq (d :: rest)
          rw [hX, List.head?_cons, List.head?_cons] at hq
          exact Option.some.inj hq
        rw [noDoubleHyphen, Bool.and_eq_true]
        refine ⟨?_, ?_⟩
        · rw [hhead]
          cases hcd : (c == '-' && d == '-') with
          | false => rfl
          | true => exact absurd hcd h
        · rw [← hX]
          exact ih

/-- Run collapsing preserves the number of lowercase-alnum characters
(it only removes hyphens). -/
theorem countP_collapse : ∀ l : List Char,
    (collapseHyphens l).countP isLowerAlnum = l.countP isLowerAlnum := by
  intro l
  induction l using collapseHyphens.induct with
  | case1 => rfl
  | case2 c => rfl
  | case3 c d rest h ih =>
      rw [collapseHyphens, if_pos h]
      have h2 := h
      simp only [Bool.and_eq_true, beq_iff_eq] at h2
      have hcons : List.countP isLowerAlnum (c :: d :: rest) =
          List.countP isLowerAlnum (d :: rest) := by
        rw [List.countP_cons, h2.1]
        simp [isLowerAlnum]
      rw [ih, hcons]
  | case4 c d rest h ih =>
      rw [collapseHyphens, if_neg h]
      rw [List.countP_cons, List.countP_cons, ih]

/-- Stripping a leading hyphen only keeps characters of the input. -/
theorem mem_stripLead (l : List Char) (c : Char)
    (hc : c ∈ stripLeadHyphen l) : c ∈ l := by
  cases l with
  | nil =>
      rw [stripLeadHyphen] at hc
      exact hc
  | cons e rest =>
      rw [stripLeadHyphen] at hc
      split at hc
      · exact List.mem_cons_of_mem e hc
      · exact hc

/-- Stripping a leading hyphen preserves adjacent-hyphen freedom. -/
theorem noDD_stripLead (l : List Char) (h : noDoubleHyphen l = true) :
    noDoubleHyphen (stripLeadHyphen l) = true := by
  cases l with
  | nil => rfl
  | cons e rest =>
      rw [stripLeadHyphen]
      split
      · exact noDD_tail e rest h
      · exact h

/-- Stripping a leading hyphen preserves the lowercase-alnum count. -/
theorem countP_stripLead (l : List Char) :
    (stripLeadHyphen l).countP isLowerAlnum = l.countP isLowerAlnum := by
  cases l with
  | nil => rfl
  | cons e rest =>
      rw [stripLeadHyphen]
      split
      · rename_i he
        rw [List.countP_cons]
        have : e = '-' := by simpa using he
        subst this
        simp [isLowerAlnum]
      · rfl

/-- On an adjacent-hyphen-free list, stripping a leading hyphen leaves a
list that does not start with a hyphen. -/
theorem head_stripLead_ne (l : List Char) (h : noDoubleHyphen l = true) :
    (stripLeadHyphen l).head? ≠ some '-' := by
  cases l with
  | nil => simp [stripLeadHyphen]
  | cons e rest =>
      rw [stripLeadHyphen]
      split
      · rename_i he
        cases rest with
        | nil => simp
        | cons f t =>
            rw [List.head?_cons]
            intro hf
            have hf2 : f = '-' := Option.some.inj hf
            have he2 : e = '-' := by simpa using he
            subst hf2
            subst he2
            rw [noDoubleHyphen] at h
            simp at h
      · rename_i he
        rw [List.head?_cons]
        intro hc
        exact he (by rw [Option.some.inj hc]; rfl)

/-- Stripping a trailing hyphen only keeps characters of the input. -/
theorem mem_stripTrail : ∀ (l : List Char) (c : Char),
    c ∈ stripTrailHyphen l → c ∈ l := by
  intro l
  induction l using stripTrailHyphen.induct with
  | case1 =>
      intro c hc
      rw [stripTrailHyphen] at hc
      exact hc
  | case2 e he =>
      intro c hc
      rw [stripTrailHyphen, if_pos he] at hc
      simp at hc
  | case3 e he =>
      intro c hc
      rw [stripTrailHyphen, if_neg he] at hc
      exact hc
  | case4 e d rest ih =>
      intro c hc
      rw [stripTrailHyphen] at hc
      rcases List.mem_cons.mp hc with he | htl
      · exact he ▸ List.mem_cons_self e (d :: rest)
      · exact List.mem_cons_of_mem e (ih c htl)

/-- The shape of a trailing-hyphen strip of a nonempty list: empty, or
keeping the original head. -/
theorem stripTrail_shape (d : Char) (rest : List Char) :
    stripTrailHyphen (d :: rest) = [] ∨
      (stripTrailHyphen (d :: rest)).head? = some d := by
  cases rest with
  | nil =>
      rw [stripTrailHyphen]
      split
      · exact Or.inl rfl
      · exact Or.inr rfl
  | cons e r =>
      rw [stripTrailHyphen]
      exact Or.inr rfl

/-- A trailing-hyphen strip of a nonempty list is empty only for the
singleton hyphen list. -/
theorem stripTrail_eq_nil (d : Char) (rest : List Char)
    (h : stripTrailHyphen (d :: rest) = []) : d = '-' ∧ rest = [] := by
  cases rest with
  | nil =>
      rw [stripTrailHyphen] at h
      split at h
      · rename_i hd
        exact ⟨by simpa using hd, rfl⟩
      · simp at h
  | cons e r =>
      rw [stripTrailHyphen] at h
      simp at h

/-- Stripping a trailing hyphen preserves adjacent-hyphen freedom. -/
theorem noDD_stripTrail : ∀ l : List Char, noDoubleHyphen l = true →
    noDoubleHyphen (stripTrailHyphen l) = true := by
  intro l
  induction l using stripTrailHyphen.induct with
  | case1 => intro _; rfl
  | case2 e he =>
      intro _
      rw [stripTrailHyphen, if_pos he]
      rfl
  | case3 e he =>
      intro _
      rw [stripTrailHyphen, if_neg he]
      rfl
  | case4 e d rest ih =>
      intro h
      rw [stripTrailHyphen]
      rcases hX : stripTrailHyphen (d :: rest) with _ | ⟨f, t⟩
      · rfl
      · have hfd : f = d := by
          rcases stripTrail_shape d rest with hnil | hhead
          · rw [hnil] at hX
            exact absurd hX.symm (List.cons_ne_nil f t)
          · rw [hX, List.head?_cons] at hhead
            exact Option.some.inj hhead
        rw [noDoubleHyphen, Bool.and_eq_true]
        refine ⟨?_, ?_⟩
        · rw [noDoubleHyphen, Bool.and_eq_true] at h
          rw [hfd]
          exact h.1
        · rw [← hX]
          exact ih (noDD_tail e (d :: rest) h)

/-- Stripping a trailing hyphen preserves the lowercase-alnum count. -/
theorem countP_stripTrail : ∀ l : List Char,
    (stripTrailHyphen l).countP isLowerAlnum = l.countP isLowerAlnum := by
  intro l
  induction l using stripTrailHyphen.induct with
  | case1 => rfl
  | case2 e he =>
      rw [stripTrailHyphen, if_pos he]
      have he2 : e = '-' := by simpa using he
      subst he2
      simp [List.countP_cons, isLowerAlnum]
  | case3 e he =>
      rw [stripTrailHyphen, if_neg he]
  | case4 e d rest ih =>
      rw [stripTrailHyphen, List.countP_cons, List.countP_cons, ih]

/-- On an adjacent-hyphen-free list, stripping a trailing hyphen leaves a
list that does not end with a hyphen. -/
theorem getLast_stripTrail_ne : ∀ l : List Char, noDoubleHyphen l = true →
    (stripTrailHyphen l).getLast? ≠ some '-' := by
  intro l
  induction l using stripTrailHyphen.induct with
  | case1 =>
      intro _
      rw [stripTrailHyphen]
      simp
  | case2 e he =>
      intro _
      rw [stripTrailHyphen, if_pos he]
      simp
  | case3 e he =>
      intro _
      rw [stripTrailHyphen, if_neg he]
      rw [List.getLast?_singleton]
      intro hc
      exact he (by rw [Option.some.inj hc]; rfl)
  | case4 e d rest ih =>
      intro h
      rw [stripTrailHyphen]
      rcases hX : stripTrailHyphen (d :: rest) with _ | ⟨f, t⟩
      · obtain ⟨hd, hrest⟩ := stripTrail_eq_nil d rest hX
        subst hd
        subst hrest
        rw [List.getLast?_singleton]
        intro hc
        have he2 : e = '-' := Option.some.inj hc
        subst he2
        rw [noDoubleHyphen] at h
        simp at h
      · rw [List.getLast?_cons_cons, ← hX]
        exact ih (noDD_tail e (d :: rest) h)

/-- An all-hyphen list collapses to nothing or a single hyphen. -/
theorem collapse_all_hyphen : ∀ l : List Char, (∀ c ∈ l, c = '-') →
    collapseHyphens l = [] ∨ collapseHyphens l = ['-'] := by
  intro l
  induction l using collapseHyphens.induct with
  | case1 => intro _; exact Or.inl rfl
  | case2 c =>
      intro h
      rw [collapseHyphens]
      exact Or.inr (by rw [h c (List.mem_cons_self c [])])
  | case3 c d rest h ih =>
      intro hall
      rw [collapseHyphens, if_pos h]
      exact ih (fun x hx => hall x (List.mem_cons_of_mem c hx))
  | case4 c d rest h ih =>
      intro hall
      exfalso
      apply h
      rw [hall c (List.mem_cons_self c (d :: rest)),
        hall d (List.mem_cons_of_mem c (List.mem_cons_self d rest))]
      rfl

/-- Stripping a trailing hyphen cannot introduce a leading hyphen. -/
theorem head_stripTrail_ne (l : List Char) (h : l.head? ≠ some '-') :
    (stripTrailHyphen l).head? ≠ some '-' := by
  cases l with
  | nil =>
      rw [stripTrailHyphen]
      simp
  | cons d rest =>
      rcases stripTrail_shape d rest with hnil | hh
      · rw [hnil]
        simp
      · rw [hh]
        rw [List.head?_cons] at h
        exact h

/-- Claim C10.  The album id derived by `bulkUploadNewAlbum` from a folder
name contains only characters of `[a-z0-9-]` and hence no uppercase
letters, has no two consecutive hyphens, and neither starts nor ends with
a hyphen; it matches the identifier grammar (one or more slug characters)
exactly when the lowercased folder name contains at least one character of
`[a-z0-9]`; and when it contains none, the derived id is the empty string,
so upload keys take the form `/<filename>`. -/
theorem deriveAlbumId_slug_properties (folderName filename : String) :
    (∀ c ∈ (deriveAlbumId folderName).data,
        isSlugChar c = true ∧ c.isUpper = false) ∧
    noDoubleHyphen (deriveAlbumId folderName).data = true ∧
    (deriveAlbumId folderName).data.head? ≠ some '-' ∧
    (deriveAlbumId folderName).data.getLast? ≠ some '-' ∧
    (matchesSlugGrammar (deriveAlbumId folderName) = true ↔
      ∃ c ∈ folderName.data.map Char.toLower, isLowerAlnum c = true) ∧
    ((∀ c ∈ folderName.data.map Char.toLower, isLowerAlnum c = false) →
      deriveAlbumId folderName = "" ∧
      r2KeyFor (deriveAlbumId folderName) filename = "/" ++ filename) := by
  have hdata : (deriveAlbumId folderName).data =
      stripTrailHyphen (stripLeadHyphen (collapseHyphens
        ((folderName.data.map Char.toLower).map slugMapChar))) := rfl
  have hset : ∀ c ∈ (deriveAlbumId folderName).data, isSlugChar c = true := by
    intro c hc
    rw [hdata] at hc
    have h1 := mem_stripTrail _ c hc
    have h2 := mem_stripLead _ c h1
    have h3 := mem_collapse _ c h2
    obtain ⟨c0, _, rfl⟩ := List.mem_map.mp h3
    exact isSlugChar_slugMapChar c0
  have hnoDD : noDoubleHyphen (deriveAlbumId folderName).data = true := by
    rw [hdata]
    exact noDD_stripTrail _ (noDD_stripLead _ (collapse_noDD _))
  have hheadne : (deriveAlbumId folderName).data.head? ≠ some '-' := by
    rw [hdata]
    exact head_stripTrail_ne _ (head_stripLead_ne _ (collapse_noDD _))
  have hlastne : (deriveAlbumId folderName).data.getLast? ≠ some '-' := by
    rw [hdata]
    exact getLast_stripTrail_ne _ (noDD_stripLead _ (collapse_noDD _))
  have hcount : (deriveAlbumId folderName).data.countP isLowerAlnum =
      (folderName.data.map Char.toLower).countP isLowerAlnum := by
    rw [hdata, countP_stripTrail, countP_stripLead, countP_collapse,
      List.countP_map]
    exact List.countP_congr (fun c _ => by
      simp only [Function.comp_apply, alnum_slugMapChar])
  have hall : (deriveAlbumId folderName).data.all isSlugChar = true :=
    List.all_eq_true.mpr hset
  refine ⟨fun c hc => ⟨hset c hc, isSlugChar_not_upper c (hset c hc)⟩,
    hnoDD, hheadne, hlastne, ?_, ?_⟩
  · constructor
    · intro hg
      have hne : (deriveAlbumId folderName).data ≠ [] := by
        unfold matchesSlugGrammar at hg
        rw [Bool.and_eq_true] at hg
        intro h0
        rw [h0] at hg
        simp at hg
      cases hD : (deriveAlbumId folderName).data with
      | nil => exact absurd hD hne
      | cons c t =>
          have hcslug : isSlugChar c = true := by
            apply hset
            rw [hD]
            exact List.mem_cons_self c t
          have hcne : c ≠ '-' := by
            intro hcc
            apply hheadne
            rw [hD, List.head?_cons, hcc]
          have hcal : isLowerAlnum c = true := by
            rw [isSlugChar, Bool.or_eq_true] at hcslug
            rcases hcslug with ha | hb
            · exact ha
            · exact absurd (by simpa using hb) hcne
          have hpos : 0 < (deriveAlbumId folderName).data.countP isLowerAlnum := by
            apply List.countP_pos_iff.mpr
            refine ⟨c, ?_, hcal⟩
            rw [hD]
            exact List.mem_cons_self c t
          rw [hcount] at hpos
          exact List.countP_pos_iff.mp hpos
    · intro hex
      have hpos : 0 < (folderName.data.map Char.toLower).countP isLowerAlnum :=
        List.countP_pos_iff.mpr hex
      rw [← hcount] at hpos
      have hne : (deriveAlbumId folderName).data ≠ [] := by
        intro h0
        rw [h0] at hpos
        simp at hpos
      unfold matchesSlugGrammar
      rw [Bool.and_eq_true]
      refine ⟨?_, hall⟩
      cases hE : (deriveAlbumId folderName).data.isEmpty with
      | false => rfl
      | true => exact absurd (List.isEmpty_eq_true.mp hE) hne
  · intro hnone
    have hLhyph : ∀ c ∈ (folderName.data.map Char.toLower).map slugMapChar,
        c = '-' := by
      intro c hc
      obtain ⟨c0, hc0, rfl⟩ := List.mem_map.mp hc
      have h0 := hnone c0 hc0
      unfold slugMapChar
      split
      · rename_i hs
        simp [isSlugChar, h0] at hs
        exact hs
      · rfl
    have hD : (deriveAlbumId folderName).data = [] := by
      rw [hdata]
      rcases collapse_all_hyphen _ hLhyph with h0 | h0
      · rw [h0]
        rfl
      · rw [h0]
        rfl
    have hid : deriveAlbumId folderName = "" := by
      have h1 : deriveAlbumId folderName =
          String.mk ((deriveAlbumId folderName).data) := rfl
      rw [h1, hD]
    refine ⟨hid, ?_⟩
    unfold r2KeyFor
    rw [hid]
    rw [show ("" ++ "/" : String) = "/" from by decide]

/-- Witness for the C10 theorem: the grammar membership direction at a
concrete folder name with uppercase letters, spaces and hyphen runs. -/
theorem deriveAlbumId_slug_properties_witness :
    matchesSlugGrammar (deriveAlbumId "--Summer Trip 2024--") = true :=
  (deriveAlbumId_slug_properties "--Summer Trip 2024--" "x.jpg").2.2.2.2.1.mpr
    ⟨'s', by decide, by decide⟩
